import Mathlib

/-!
Verification of the agent session core of the `ollama-interface` repository.

The JavaScript sources (`src/agent.js`, `src/system-tools.js`) are shallowly
embedded below: JS strings are modelled by Lean `String` (or `List Char` for
the character-level tool-call scanner), JS arrays by `List`, mutable object
state by explicit state records threaded through the functions, and the
awaited results of external effects (the subprocess layer, the streamed HTTP
responses of the inference server) by explicit oracle arguments.  Wall-clock
data (timestamps, execution durations) is omitted from the embedded records.
Definitions come first, all theorems follow at the end of the file.
-/

/-! ## JSON values (model of JS parsed-JSON data) -/

/-- Model of a parsed JSON value.  Numbers keep their source lexeme, which is
all the embedded code ever needs (the agent never computes with them). -/
inductive Json where
  | null : Json
  | bool (b : Bool) : Json
  | num (lexeme : String) : Json
  | str (s : String) : Json
  | arr (elems : List Json) : Json
  | obj (fields : List (String × Json)) : Json
deriving Repr

/-! ## Data model of `system-tools.js` -/

/-- Model of one entry of `SystemTools.executionHistory` (an `execution`
object built in `executeCommand` / `executeCommandStream`).  The wall-clock
fields `executionTime` and `timestamp` are omitted. -/
structure Execution where
  command : String
  stdout : String
  stderr : String
  exitCode : Option Int
  error : Option String
deriving Repr, DecidableEq

/-- Mutable state of a `SystemTools` instance. -/
structure SystemToolsState where
  executionHistory : List Execution
deriving Repr, DecidableEq

/-! ## Data model of `agent.js` -/

/-- Result value returned by one of the system-tool primitives. -/
inductive ToolResVal where
  | strRes (s : String) : ToolResVal
  | execRes (e : Execution) : ToolResVal
  | jsonRes (j : Json) : ToolResVal
deriving Repr

/-- Model of one entry of `PrivateAgent.toolCallHistory` (the `toolCall`
object built in `executeTool`); wall-clock fields omitted. -/
structure ToolCallRecord where
  function : String
  args : Json
  result : Option ToolResVal
  error : Option String
  success : Bool
deriving Repr

/-- Model of one conversation message `{ role, content }`. -/
structure Message where
  role : String
  content : String
deriving Repr, DecidableEq

/-- Mutable state of a `PrivateAgent` instance (the fields the specified core
reads or writes). -/
structure AgentState where
  model : String
  systemPrompt : String
  maxContextTokens : Nat
  conversationHistory : List Message
  enableTools : Bool
  toolCallHistory : List ToolCallRecord
  systemTools : SystemToolsState
deriving Repr

/-! ## Conversation state operations (`agent.js` lines 46-78) -/

/-- Total number of content characters of a history, as computed by the
`reduce` in `checkAndResetContext`.  JS `String.length` counts UTF-16 units;
Lean `String.length` counts characters, which agrees on the ASCII data the
agent manipulates. -/
def historyChars (history : List Message) : Nat :=
  history.foldl (fun sum msg => sum + msg.content.length) 0

/-- The synthetic system message inserted by `checkAndResetContext`. -/
def resetNotice : Message :=
  ⟨"system", "[Previous conversation context was reset due to length limit]"⟩

/-- Model of `this.conversationHistory.slice (-n)`: the last `min n length`
elements. -/
def sliceLast (n : Nat) (l : List Message) : List Message :=
  List.drop (l.length - n) l

/-- Embedding of `checkAndResetContext` (`agent.js` lines 51-78).  The JS
code compares `totalChars / 4 > maxContextTokens` with exact float division;
over the integers this is equivalent to `maxContextTokens * 4 < totalChars`.
Returns the JS return value paired with the updated state. -/
def checkAndResetContext (s : AgentState) : Bool × AgentState :=
  let totalChars := historyChars s.conversationHistory
  if s.maxContextTokens * 4 < totalChars then
    let systemMessages := s.conversationHistory.filter (fun msg => msg.role == "system")
    let recentMessages := sliceLast 10 s.conversationHistory
    (true,
      { s with conversationHistory :=
          systemMessages ++ [resetNotice] ++ recentMessages })
  else
    (false, s)

/-- Embedding of `addMessage` (`agent.js` lines 46-49): push the message,
then run the reset check (whose boolean result JS discards). -/
def addMessage (s : AgentState) (role content : String) : AgentState :=
  (checkAndResetContext
    { s with conversationHistory := s.conversationHistory ++ [Message.mk role content] }).2

/-! ## Export / import (`agent.js` lines 714-733) -/

/-- Shape of the JSON document produced by `exportHistory`.  `Option` models
JS `undefined` for absent fields; the `timestamp` field is wall-clock data
that `importHistory` never reads and is omitted.  The `JSON.stringify` /
`JSON.parse` round trip on this object shape is modelled structurally: a
well-formed export blob parses back to the same field values. -/
structure ExportBlob where
  model : Option String
  systemPrompt : Option String
  history : Option (List Message)
deriving Repr, DecidableEq

/-- JS `a || b` for a possibly-absent string: `undefined` and the empty
string are falsy, any other string is truthy. -/
def jsOrString (a : Option String) (b : String) : String :=
  match a with
  | none => b
  | some s => if s = "" then b else s

/-- Embedding of `exportHistory` (`agent.js` lines 714-721). -/
def exportHistory (s : AgentState) : ExportBlob :=
  { model := some s.model
    systemPrompt := some s.systemPrompt
    history := some s.conversationHistory }

/-- Embedding of `importHistory` (`agent.js` lines 723-733) applied to an
already-parsed blob.  `data.history || []` keeps any present array (a JS
array is truthy even when empty) and falls back to `[]` when absent. -/
def importHistory (s : AgentState) (blob : ExportBlob) : AgentState :=
  { s with
    model := jsOrString blob.model s.model
    systemPrompt := jsOrString blob.systemPrompt s.systemPrompt
    conversationHistory := blob.history.getD [] }

/-! ## The security denylist (`system-tools.js` lines 155-172) -/

/-- Model of the character class `\s` of a JS regex restricted to the ASCII
range (the embedded commands are ASCII). -/
def isSpaceJs (c : Char) : Bool :=
  c = ' ' || c = '\t' || c = '\n' || c = '\r' || c.toNat = 11 || c.toNat = 12

/-- Greedy `\s*`: drop every leading whitespace character. -/
def dropWsL : List Char → List Char
  | [] => []
  | c :: t => if isSpaceJs c then dropWsL t else c :: t

/-- Match a literal character sequence at the head of the input, returning
the remainder on success. -/
def matchLit : List Char → List Char → Option (List Char)
  | [], s => some s
  | _ :: _, [] => none
  | p :: ps, c :: t => if p = c then matchLit ps t else none

/-- One token of a denylist pattern: a literal run, or `\s+`. -/
inductive PatTok where
  | lit (chars : List Char) : PatTok
  | ws1 : PatTok
deriving Repr

/-- Match a token sequence at the head of the input.  `\s+` is taken
greedily, which is faithful here because in every denylist pattern the token
after a `\s+` begins with a non-whitespace character, so the regex engine's
backtracking never has to give any whitespace back. -/
def matchToksAt : List PatTok → List Char → Bool
  | [], _ => true
  | PatTok.lit p :: rest, s =>
      match matchLit p s with
      | some t => matchToksAt rest t
      | none => false
  | PatTok.ws1 :: rest, s =>
      match s with
      | [] => false
      | c :: t => isSpaceJs c && matchToksAt rest (dropWsL t)

/-- Match a token sequence anywhere in the input (regex `test`). -/
def searchToks (toks : List PatTok) : List Char → Bool
  | [] => matchToksAt toks []
  | s@(_ :: t) => matchToksAt toks s || searchToks toks t

/-- The `dangerousPatterns` list of `isDangerousCommand`, with each regex
translated to literal/whitespace tokens over the lowercased command:
`rm\s+-rf\s+\/[^\/]*` (the trailing `[^\/]*` always matches, possibly
emptily, so it imposes nothing), `del\s+\/s\s+\/q\s+c:\\`, `format\s+c:`,
`mkfs`, `dd\s+if=`, the fork-bomb pattern `:(){ :|:& };:` (in which `(`/`)`
form an empty group and `|` is alternation, so it is the alternation of the
literals `:{ :` and `:& };:`), `shutdown`, `reboot`, `init\s+0`, and
`systemctl\s+poweroff`. -/
def dangerousPatterns : List (List PatTok) :=
  [ [PatTok.lit "rm".data, PatTok.ws1, PatTok.lit "-rf".data,
     PatTok.ws1, PatTok.lit "/".data],
    [PatTok.lit "del".data, PatTok.ws1, PatTok.lit "/s".data,
     PatTok.ws1, PatTok.lit "/q".data, PatTok.ws1, PatTok.lit "c:\\".data],
    [PatTok.lit "format".data, PatTok.ws1, PatTok.lit "c:".data],
    [PatTok.lit "mkfs".data],
    [PatTok.lit "dd".data, PatTok.ws1, PatTok.lit "if=".data],
    [PatTok.lit ":\x7b :".data],
    [PatTok.lit ":& \x7d;:".data],
    [PatTok.lit "shutdown".data],
    [PatTok.lit "reboot".data],
    [PatTok.lit "init".data, PatTok.ws1, PatTok.lit "0".data],
    [PatTok.lit "systemctl".data, PatTok.ws1, PatTok.lit "poweroff".data] ]

/-- Embedding of `isDangerousCommand` (`system-tools.js` lines 155-172):
lowercase the command, then test every denylist pattern against it. -/
def isDangerousCommand (command : String) : Bool :=
  let lowerCmd := command.data.map Char.toLower
  dangerousPatterns.any (fun pat => searchToks pat lowerCmd)

/-! ## Command execution (`system-tools.js` lines 39-150)

The awaited behaviour of the subprocess layer is an explicit oracle
argument: `ExecOutcome` is what `execAsync` settles with, `StreamOutcome`
is the event sequence a spawned child produces.  Whether the wall-clock
timeout fires is part of the oracle (real elapsed time is not modelled);
the default timeouts in the source are 30000 ms for `executeCommand` and
60000 ms for the `executeCommandStream` watchdog. -/

/-- Resolution of the awaited `execAsync` call: normal completion, rejection
with an error object (non-zero exit), or rejection because `execAsync`'s own
timeout killed the process (`killed: true`, `code: null`). -/
inductive ExecOutcome where
  | completed (stdout stderr : String) : ExecOutcome
  | failed (stdout stderr : Option String) (code : Option Int)
      (message : String) : ExecOutcome
  | timedOut (stdout stderr : Option String) (message : String) : ExecOutcome
deriving Repr, DecidableEq

/-- The execution record built in the `catch` block of `executeCommand`:
`stdout: error.stdout || ''`, `stderr: error.stderr || error.message`,
`exitCode: error.code || 1` (JS `||` treats `undefined`, `null`, `''` and
`0` as falsy). -/
def execErrorRecord (command : String) (stdout stderr : Option String)
    (code : Option Int) (message : String) : Execution :=
  { command := command
    stdout := stdout.getD ""
    stderr := if (stderr.getD "") = "" then message else stderr.getD ""
    exitCode := some (match code with
      | some c => if c = 0 then 1 else c
      | none => 1)
    error := some message }

/-- Embedding of `executeCommand` (`system-tools.js` lines 39-92).  A
denylisted command throws before `execAsync` is ever consulted and before
anything is appended to the history; otherwise the `catch` block converts
every rejection — including the timeout kill — into a **resolved** execution
record, so the returned value is `Except.ok` for every outcome. -/
def executeCommand (st : SystemToolsState) (command : String)
    (outcome : ExecOutcome) : Except String Execution × SystemToolsState :=
  if isDangerousCommand command then
    (Except.error "Command blocked for security reasons", st)
  else
    match outcome with
    | ExecOutcome.completed out err =>
        let ex : Execution :=
          { command := command, stdout := out, stderr := err,
            exitCode := some 0, error := none }
        (Except.ok ex,
          { st with executionHistory := st.executionHistory ++ [ex] })
    | ExecOutcome.failed so se code msg =>
        let ex := execErrorRecord command so se code msg
        (Except.ok ex,
          { st with executionHistory := st.executionHistory ++ [ex] })
    | ExecOutcome.timedOut so se msg =>
        let ex := execErrorRecord command so se none msg
        (Except.ok ex,
          { st with executionHistory := st.executionHistory ++ [ex] })

/-- One `data` event of a spawned child's stdout or stderr pipe. -/
inductive StreamChunk where
  | out (text : String) : StreamChunk
  | err (text : String) : StreamChunk
deriving Repr, DecidableEq

/-- Concatenate the stdout chunks of an event list. -/
def chunksOut (cs : List StreamChunk) : String :=
  cs.foldl (fun acc c => match c with
    | StreamChunk.out t => acc ++ t
    | StreamChunk.err _ => acc) ""

/-- Concatenate the stderr chunks of an event list. -/
def chunksErr (cs : List StreamChunk) : String :=
  cs.foldl (fun acc c => match c with
    | StreamChunk.out _ => acc
    | StreamChunk.err t => acc ++ t) ""

/-- Event sequence of a spawned child: it closes before the 60 s watchdog
fires; or spawning itself fails (`error` event, nothing recorded); or the
watchdog fires first — the promise is rejected with `Command timeout` and
the child is killed, after which the chunks `post` may still be delivered
before the eventual `close` event, whose handler appends the record (its
`resolve` is a no-op after the rejection). -/
inductive StreamOutcome where
  | closes (chunks : List StreamChunk) (code : Option Int) : StreamOutcome
  | spawnFails (message : String) : StreamOutcome
  | timesOut (pre post : List StreamChunk) (code : Option Int) : StreamOutcome
deriving Repr, DecidableEq

/-- Embedding of `executeCommandStream` (`system-tools.js` lines 97-150). -/
def executeCommandStream (st : SystemToolsState) (command : String)
    (outcome : StreamOutcome) : Except String Execution × SystemToolsState :=
  if isDangerousCommand command then
    (Except.error "Command blocked for security reasons", st)
  else
    match outcome with
    | StreamOutcome.closes chunks code =>
        let ex : Execution :=
          { command := command, stdout := chunksOut chunks,
            stderr := chunksErr chunks, exitCode := code, error := none }
        (Except.ok ex,
          { st with executionHistory := st.executionHistory ++ [ex] })
    | StreamOutcome.spawnFails msg =>
        (Except.error msg, st)
    | StreamOutcome.timesOut pre post code =>
        let ex : Execution :=
          { command := command, stdout := chunksOut (pre ++ post),
            stderr := chunksErr (pre ++ post), exitCode := code,
            error := none }
        (Except.error "Command timeout",
          { st with executionHistory := st.executionHistory ++ [ex] })

/-! ## Tool dispatch (`agent.js` lines 201-270) -/

/-- The tool names handled by the `switch` in `executeTool`. -/
def knownToolNames : List String :=
  ["execute_command", "list_directory", "read_file", "write_file",
   "get_system_info", "get_current_directory"]

/-- Look up a key of a JSON object (JS property access on a parsed value). -/
def jsonLookup (j : Json) (key : String) : Option Json :=
  match j with
  | Json.obj fields => (fields.find? (fun f => f.1 == key)).map (fun f => f.2)
  | _ => none

/-- The `args.command` value handed to `executeCommand`: `some` of the
string when the property is a string, `none` when it is absent or not a
string — in the source such a value reaches `command.toLowerCase()` inside
`isDangerousCommand` (system-tools.js line 156) and throws `TypeError`
there, before any history push (no JSON-derived non-string value has a
`toLowerCase` method). -/
def argCommand (args : Json) : Option String :=
  match jsonLookup args "command" with
  | some (Json.str s) => some s
  | _ => none

/-- The `TypeError` message raised by `command.toLowerCase()` on a missing
command (for a present non-string value the JS text differs slightly; no
theorem inspects this string). -/
def toLowerCaseTypeError : String :=
  "Cannot read properties of undefined (reading 'toLowerCase')"

/-- The body of `executeTool`'s `try` block: dispatch on the tool name.
`execute_command` is routed through the embedded `executeCommand`, whose
two throwing paths are the denylist rejection and the `TypeError` that a
missing or non-string `args.command` raises inside `isDangerousCommand`
before anything is recorded; the other five known primitives are
filesystem/OS effects whose awaited results the oracle `primOutcome`
supplies (`Except.error` models a throwing primitive); an unknown name
throws `Unknown tool: <name>`. -/
def toolPrim (a : AgentState) (functionName : String) (args : Json)
    (execOutcome : ExecOutcome) (primOutcome : Except String ToolResVal) :
    Except String ToolResVal × SystemToolsState :=
  if functionName = "execute_command" then
    match argCommand args with
    | some cmd =>
        let r := executeCommand a.systemTools cmd execOutcome
        (r.1.map ToolResVal.execRes, r.2)
    | none =>
        (Except.error toLowerCaseTypeError, a.systemTools)
  else if functionName ∈ knownToolNames then
    (primOutcome, a.systemTools)
  else
    (Except.error ("Unknown tool: " ++ functionName), a.systemTools)

/-- Embedding of `executeTool` (`agent.js` lines 201-270): run the
primitive; on success append a success record to `toolCallHistory` and
return the result; on any throw append a failure record carrying the error
message and re-raise. -/
def executeTool (a : AgentState) (functionName : String) (args : Json)
    (execOutcome : ExecOutcome) (primOutcome : Except String ToolResVal) :
    Except String ToolResVal × AgentState :=
  match toolPrim a functionName args execOutcome primOutcome with
  | (Except.ok r, st') =>
      (Except.ok r,
        { a with
            systemTools := st'
            toolCallHistory := a.toolCallHistory ++
              [{ function := functionName, args := args, result := some r,
                 error := none, success := true }] })
  | (Except.error m, st') =>
      (Except.error m,
        { a with
            systemTools := st'
            toolCallHistory := a.toolCallHistory ++
              [{ function := functionName, args := args, result := none,
                 error := some m, success := false }] })

/-! ## JSON parsing (model of `JSON.parse`)

`extractToolCalls` runs `JSON.parse` on the text captured by the arguments
group.  The grammar below follows RFC 8259 JSON: values, objects, arrays,
strings with escapes, numbers (kept as lexemes), `true`/`false`/`null`.
Recursion is bounded by a fuel argument; `jsonParse` supplies
`length + 1`, which suffices because every recursive call first consumes
at least one input character. -/

/-- JSON insignificant whitespace. -/
def isJsonWs (c : Char) : Bool :=
  c = ' ' || c = '\t' || c = '\n' || c = '\r'

/-- Skip JSON insignificant whitespace. -/
def dropJsonWs (s : List Char) : List Char :=
  s.dropWhile isJsonWs

/-- Decimal digit test. -/
def isJsonDigit (c : Char) : Bool :=
  '0' ≤ c && c ≤ '9'

/-- Value of one hexadecimal digit. -/
def parseHexDigit (c : Char) : Option Nat :=
  if '0' ≤ c && c ≤ '9' then some (c.toNat - 48)
  else if 'a' ≤ c && c ≤ 'f' then some (c.toNat - 87)
  else if 'A' ≤ c && c ≤ 'F' then some (c.toNat - 55)
  else none

/-- Translation of a single-character JSON string escape. -/
def escCharJson (c : Char) : Option Char :=
  if c = '"' then some '"'
  else if c = '\\' then some '\\'
  else if c = '/' then some '/'
  else if c = 'b' then some (Char.ofNat 8)
  else if c = 'f' then some (Char.ofNat 12)
  else if c = 'n' then some '\n'
  else if c = 'r' then some '\r'
  else if c = 't' then some '\t'
  else none

/-- Parse the body of a JSON string after the opening quote, returning the
decoded characters and the input after the closing quote. -/
def parseStringBody : Nat → List Char → Option (List Char × List Char)
  | 0, _ => none
  | _, [] => none
  | fuel + 1, c :: t =>
    if c = '"' then some ([], t)
    else if c = '\\' then
      match t with
      | [] => none
      | e :: t2 =>
        if e = 'u' then
          match t2 with
          | a :: b :: c2 :: d :: t3 =>
            match parseHexDigit a, parseHexDigit b,
                parseHexDigit c2, parseHexDigit d with
            | some ha, some hb, some hc, some hd =>
                (parseStringBody fuel t3).map (fun p =>
                  (Char.ofNat (((ha * 16 + hb) * 16 + hc) * 16 + hd) :: p.1,
                   p.2))
            | _, _, _, _ => none
          | _ => none
        else
          match escCharJson e with
          | some ec => (parseStringBody fuel t2).map (fun p => (ec :: p.1, p.2))
          | none => none
    else if c.toNat < 32 then none
    else (parseStringBody fuel t).map (fun p => (c :: p.1, p.2))

/-- Drop a run of decimal digits. -/
def chompDigits : List Char → List Char
  | [] => []
  | c :: t => if isJsonDigit c then chompDigits t else c :: t

/-- JSON integer part: `0` or a nonzero digit followed by digits. -/
def intPart : List Char → Option (List Char)
  | [] => none
  | c :: t =>
    if c = '0' then some t
    else if isJsonDigit c then some (chompDigits t)
    else none

/-- Optional JSON fraction part `.[0-9]+`. -/
def fracPart : List Char → Option (List Char)
  | [] => some []
  | c :: t =>
    if c = '.' then
      match t with
      | [] => none
      | d :: t2 => if isJsonDigit d then some (chompDigits t2) else none
    else some (c :: t)

/-- Optional JSON exponent part `[eE][+-]?[0-9]+`. -/
def expPart : List Char → Option (List Char)
  | [] => some []
  | c :: t =>
    if c = 'e' || c = 'E' then
      match t with
      | [] => none
      | d :: t2 =>
        if d = '+' || d = '-' then
          match t2 with
          | [] => none
          | d2 :: t3 => if isJsonDigit d2 then some (chompDigits t3) else none
        else if isJsonDigit d then some (chompDigits t2)
        else none
    else some (c :: t)

/-- Does an entire character run form a valid JSON number lexeme? -/
def validNumberLexeme (s : List Char) : Bool :=
  let body := match s with
    | '-' :: t => t
    | t => t
  match intPart body with
  | none => false
  | some r1 =>
    match fracPart r1 with
    | none => false
    | some r2 =>
      match expPart r2 with
      | none => false
      | some r3 => decide (r3 = [])

/-- Characters that may appear in a JSON number lexeme. -/
def isNumChar (c : Char) : Bool :=
  isJsonDigit c || c = '-' || c = '+' || c = '.' || c = 'e' || c = 'E'

/-- Parse a JSON number: the maximal run of number characters must form a
valid lexeme, kept verbatim. -/
def parseJsonNumber (s : List Char) : Option (Json × List Char) :=
  let lex := s.takeWhile isNumChar
  if lex ≠ [] ∧ validNumberLexeme lex = true then
    some (Json.num (String.mk lex), s.dropWhile isNumChar)
  else none

mutual

/-- Parse one JSON value after skipping leading whitespace. -/
def parseJsonValue : Nat → List Char → Option (Json × List Char)
  | 0, _ => none
  | fuel + 1, s =>
    match dropJsonWs s with
    | [] => none
    | c :: t =>
      if c = '{' then
        match dropJsonWs t with
        | '}' :: t2 => some (Json.obj [], t2)
        | _ => (parseJsonMembers fuel t).map (fun p => (Json.obj p.1, p.2))
      else if c = '[' then
        match dropJsonWs t with
        | ']' :: t2 => some (Json.arr [], t2)
        | _ => (parseJsonElems fuel t).map (fun p => (Json.arr p.1, p.2))
      else if c = '"' then
        (parseStringBody fuel t).map (fun p => (Json.str (String.mk p.1), p.2))
      else if c = 't' then
        (matchLit "rue".data t).map (fun t2 => (Json.bool true, t2))
      else if c = 'f' then
        (matchLit "alse".data t).map (fun t2 => (Json.bool false, t2))
      else if c = 'n' then
        (matchLit "ull".data t).map (fun t2 => (Json.null, t2))
      else
        parseJsonNumber (c :: t)

/-- Parse the members of a JSON object up to and including the closing
brace. -/
def parseJsonMembers : Nat → List Char → Option (List (String × Json) × List Char)
  | 0, _ => none
  | fuel + 1, s =>
    match dropJsonWs s with
    | '"' :: t =>
      (parseStringBody fuel t).bind (fun kp =>
        match dropJsonWs kp.2 with
        | ':' :: t2 =>
          (parseJsonValue fuel t2).bind (fun vp =>
            match dropJsonWs vp.2 with
            | ',' :: t3 =>
              (parseJsonMembers fuel t3).map (fun mp =>
                ((String.mk kp.1, vp.1) :: mp.1, mp.2))
            | '}' :: t3 => some ([(String.mk kp.1, vp.1)], t3)
            | _ => none)
        | _ => none)
    | _ => none

/-- Parse the elements of a JSON array up to and including the closing
bracket. -/
def parseJsonElems : Nat → List Char → Option (List Json × List Char)
  | 0, _ => none
  | fuel + 1, s =>
    (parseJsonValue fuel s).bind (fun vp =>
      match dropJsonWs vp.2 with
      | ',' :: t3 =>
        (parseJsonElems fuel t3).map (fun ep => (vp.1 :: ep.1, ep.2))
      | ']' :: t3 => some ([vp.1], t3)
      | _ => none)

end

/-- Model of `JSON.parse`: one value, optionally surrounded by whitespace,
consuming the entire input. -/
def jsonParse (s : List Char) : Option Json :=
  match parseJsonValue (s.length + 1) s with
  | some (v, rest) => if dropJsonWs rest = [] then some v else none
  | none => none

/-! ## Tool-call extraction (`agent.js` lines 485-537)

The regex
`<tool_call>\s*<function>(.*?)<\/function>\s*<arguments>(.*?)<\/arguments>\s*<\/tool_call>`
with flags `gs` is embedded character by character: literal tags, greedy
`\s*` (faithful because each following literal begins with `<`, which is
not whitespace, so the engine never backtracks into a `\s*`), and lazy
groups `(.*?)` that try the shortest capture first and grow it only when
the rest of the pattern fails (with the `s` flag `.` also matches
newlines).  The global scan tries successive start positions left to right
and resumes after the end of each match. -/

/-- The literal tags of the marker pattern. -/
def toolOpenL : List Char := "<tool_call>".data

/-- Opening function-name tag. -/
def funOpenL : List Char := "<function>".data

/-- Closing function-name tag. -/
def funCloseL : List Char := "</function>".data

/-- Opening arguments tag. -/
def argOpenL : List Char := "<arguments>".data

/-- Closing arguments tag. -/
def argCloseL : List Char := "</arguments>".data

/-- Closing marker tag. -/
def toolCloseL : List Char := "</tool_call>".data

/-- Lazy group `(.*?)` followed by the continuation `k` of the pattern:
try the shortest capture (`done` is the text captured so far) and grow it
one character at a time until the continuation succeeds. -/
def lazySplit {α : Type} (k : List Char → List Char → Option α) :
    List Char → List Char → Option α
  | done, [] => k done []
  | done, c :: t =>
    match k done (c :: t) with
    | some v => some v
    | none => lazySplit k (done ++ [c]) t

/-- One attempted match of the marker pattern at the head of the input,
returning the two captured groups and the input after the match. -/
def matchMarkerAt (s : List Char) :
    Option ((List Char × List Char) × List Char) :=
  (matchLit toolOpenL s).bind (fun s1 =>
  (matchLit funOpenL (dropWsL s1)).bind (fun s2 =>
  lazySplit (fun name r =>
    (matchLit funCloseL r).bind (fun r1 =>
    (matchLit argOpenL (dropWsL r1)).bind (fun r2 =>
    lazySplit (fun args r3 =>
      (matchLit argCloseL r3).bind (fun r4 =>
      (matchLit toolCloseL (dropWsL r4)).map (fun r5 =>
        ((name, args), r5)))) [] r2))) [] s2))

/-- JS `String.trim`: strip whitespace from both ends. -/
def trimL (s : List Char) : List Char :=
  ((s.dropWhile isSpaceJs).reverse.dropWhile isSpaceJs).reverse

/-- One extracted tool call `{ function: { name, arguments } }`; the name is
already trimmed as in the source. -/
structure ToolCall where
  name : List Char
  arguments : Json
deriving Repr

/-- Argument decoding in `extractToolCalls`: start from `{}`; when the
trimmed capture is non-empty run `JSON.parse` on it, a parse failure
leaving `{}` (the `catch` only logs). -/
def parseArgsText (a : List Char) : Json :=
  let t := trimL a
  if t = [] then Json.obj []
  else
    match jsonParse t with
    | some j => j
    | none => Json.obj []

/-- The `regex.exec` loop: try a match at each position from left to right;
on a match emit the entry and continue at the end of the match, otherwise
advance one character.  The fuel bounds the number of iterations;
`extractToolCalls` passes the input length, which suffices because every
iteration consumes at least one character. -/
def scanToolCalls : Nat → List Char → List ToolCall
  | 0, _ => []
  | _, [] => []
  | fuel + 1, c :: t =>
    match matchMarkerAt (c :: t) with
    | some ((name, args), rest) =>
        { name := trimL name, arguments := parseArgsText args }
          :: scanToolCalls fuel rest
    | none => scanToolCalls fuel t

/-- Embedding of `extractToolCalls` (`agent.js` lines 485-537) on the
character list of the assistant text. -/
def extractToolCalls (text : List Char) : List ToolCall :=
  scanToolCalls text.length text

/-! ## Well-formed markers -/

/-- A decomposed tool-call marker: whitespace runs between the tags, a
function name and an arguments text. -/
structure Marker where
  ws1 : List Char
  name : List Char
  ws2 : List Char
  args : List Char
  ws3 : List Char

/-- The rendered text of a marker. -/
def renderMarker (m : Marker) : List Char :=
  toolOpenL ++ m.ws1 ++ funOpenL ++ m.name ++ funCloseL ++ m.ws2
    ++ argOpenL ++ m.args ++ argCloseL ++ m.ws3 ++ toolCloseL

/-- Is every character whitespace? -/
def allWs (l : List Char) : Bool :=
  l.all isSpaceJs

/-- Does `pat` occur as a contiguous subsequence of the input? -/
def containsSeq (pat : List Char) : List Char → Bool
  | [] => decide (pat = [])
  | s@(_ :: t) => (matchLit pat s).isSome || containsSeq pat t

/-- Well-formedness of a marker: the separators are whitespace, the name
does not contain the closing function tag, and the arguments text does not
contain the closing arguments tag — so each lazy group stops exactly at the
marker's own closing tag. -/
def WFMarker (m : Marker) : Prop :=
  allWs m.ws1 = true ∧ allWs m.ws2 = true ∧ allWs m.ws3 = true ∧
  containsSeq funCloseL m.name = false ∧ containsSeq argCloseL m.args = false

instance decWFMarker (m : Marker) : Decidable (WFMarker m) := by
  unfold WFMarker
  infer_instance

/-- Interleave plain-text segments and rendered markers
(`p₀ m₁ p₁ m₂ … m_n p_n`). -/
def interleave : List (List Char) → List Marker → List Char
  | [], [] => []
  | [], m :: ms => renderMarker m ++ interleave [] ms
  | p :: ps, [] => p ++ interleave ps []
  | p :: ps, m :: ms => p ++ renderMarker m ++ interleave ps ms

/-! ## Streamed turns (`agent.js` lines 356-704)

The two HTTP streams of a turn are oracles: each is the list of parsed
NDJSON fragments the inference server delivers (content deltas, then a
final fragment carrying `done: true` and the token counters; absent
counters are the `|| 0` default).  The `onChunk` UI forwarding is a side
effect outside the state and is not modelled.  A stream that ends without
a `done` fragment never resolves its promise; the model returns `none`. -/

/-- One parsed fragment of a streamed chat response. -/
structure Fragment where
  content : String
  done : Bool
  prompt_eval_count : Nat
  eval_count : Nat
deriving Repr, DecidableEq

/-- Accumulate content deltas (appended before the `done` check, as in the
source) until and including the first fragment with `done: true`; return
the accumulated text and that fragment. -/
def runStream : List Fragment → String → Option (String × Fragment)
  | [], _ => none
  | f :: rest, acc =>
    let acc2 := acc ++ f.content
    if f.done then some (acc2, f) else runStream rest acc2

/-- One entry of the results list built by `executeToolCallsAndContinue`:
the tool name with either formatted result text or an error message. -/
structure ToolResultEntry where
  tool : String
  result : Option String
  error : Option String
deriving Repr, DecidableEq

mutual

/-- Display serializer standing in for `JSON.stringify(result, null, 2)`
(used only to render non-string, non-execution tool results into prompt
text; no claim inspects this text, so the pretty-printing whitespace is
abridged). -/
def jsonStringify : Json → String
  | Json.null => "null"
  | Json.bool true => "true"
  | Json.bool false => "false"
  | Json.num lex => lex
  | Json.str s => "\"" ++ s ++ "\""
  | Json.arr xs => "[" ++ jsonStringifyElems xs ++ "]"
  | Json.obj fs => "\x7b" ++ jsonStringifyFields fs ++ "\x7d"

/-- Serialize array elements, comma separated. -/
def jsonStringifyElems : List Json → String
  | [] => ""
  | [x] => jsonStringify x
  | x :: t => jsonStringify x ++ ", " ++ jsonStringifyElems t

/-- Serialize object fields, comma separated. -/
def jsonStringifyFields : List (String × Json) → String
  | [] => ""
  | [f] => "\"" ++ f.1 ++ "\": " ++ jsonStringify f.2
  | f :: t => "\"" ++ f.1 ++ "\": " ++ jsonStringify f.2 ++ ", "
      ++ jsonStringifyFields t

end

/-- Result formatting in `executeToolCallsAndContinue` (lines 676-684):
a string result is used verbatim, an execution record renders stdout plus
an optional `Stderr:` suffix (skipped for the falsy empty string), anything
else is serialized. -/
def formatToolResult (r : ToolResVal) : String :=
  match r with
  | ToolResVal.strRes s => s
  | ToolResVal.execRes e =>
      e.stdout ++ (if e.stderr ≠ "" then "\nStderr: " ++ e.stderr else "")
  | ToolResVal.jsonRes j => jsonStringify j

/-- Argument normalization in `executeToolCallsAndContinue` (lines
641-668): `null`/absent and non-object, non-string values become `{}`; an
object passes through; a string whose trimmed form is `''` or `'{}'`
becomes `{}`, otherwise it is parsed with a parse failure degrading to
`{}`. -/
def normalizeArgs : Json → Json
  | Json.obj fs => Json.obj fs
  | Json.str s =>
      let t := trimL s.data
      if t = [] ∨ t = "\x7b\x7d".data then Json.obj []
      else
        match jsonParse s.data with
        | some j => j
        | none => Json.obj []
  | _ => Json.obj []

/-- Oracle for one dispatched tool call: the subprocess outcome consulted
by `execute_command` and the awaited result of any other primitive. -/
structure PrimOracle where
  execOutcome : ExecOutcome
  primOutcome : Except String ToolResVal
deriving Repr

/-- Embedding of the tool loop of `executeToolCallsAndContinue`
(`agent.js` lines 624-704): normalize each call's arguments, dispatch it
through `executeTool`, and collect a result entry — the formatted result on
success, the error message on failure (the loop catches the re-raised
error instead of aborting the turn).  Oracles are consumed positionally; a
default stands in if the list is short (never the case in the theorems). -/
def runToolCalls (a : AgentState) (calls : List ToolCall)
    (oracles : List PrimOracle) : List ToolResultEntry × AgentState :=
  match calls with
  | [] => ([], a)
  | c :: rest =>
    let o := oracles.headD
      ⟨ExecOutcome.completed "" "", Except.ok (ToolResVal.strRes "")⟩
    let args := normalizeArgs c.arguments
    let r := executeTool a (String.mk c.name) args o.execOutcome o.primOutcome
    let entry : ToolResultEntry :=
      match r.1 with
      | Except.ok v => ⟨String.mk c.name, some (formatToolResult v), none⟩
      | Except.error m => ⟨String.mk c.name, none, some m⟩
    let next := runToolCalls r.2 rest oracles.tail
    (entry :: next.1, next.2)

/-- Embedding of `buildToolResultPrompt` (`agent.js` lines 542-557). -/
def buildToolResultPrompt (toolResults : List ToolResultEntry) : String :=
  (toolResults.foldl (fun prompt r =>
    prompt ++ "Tool: " ++ r.tool ++ "\n" ++
      (match r.error with
       | some e => "Error: " ++ e ++ "\n\n"
       | none => "Result:\n" ++ r.result.getD "" ++ "\n\n"))
    "Tool execution results:\n\n")
  ++ "Please provide a natural language response to the user based on these results."

/-- Embedding of `continueAfterTools` (`agent.js` lines 562-619): append
the follow-up user prompt, run the second streamed request, append the
assistant reply; the promise resolves with the reply text only — the
second stream's `done` fragment and its counters are dropped. -/
def continueAfterTools (a : AgentState) (prompt : String)
    (frags2 : List Fragment) : Option (String × AgentState) :=
  let a1 := addMessage a "user" prompt
  match runStream frags2 "" with
  | none => none
  | some (resp, _) => some (resp, addMessage a1 "assistant" resp)

/-- The resolution value of `streamChat`. -/
structure TurnResult where
  message : String
  model : String
  contextReset : Bool
  toolCalls : List ToolCall
  total_tokens : Nat
deriving Repr

/-- Embedding of `streamChat` (`agent.js` lines 356-480).  The user message
is appended; the first streamed response is accumulated until its `done`
fragment; tool-call markers are extracted from the full text.  With tool
calls found, tools enabled and the caller not opted out: the tools run, the
assistant text and then the follow-up prompt and closing reply are
appended, and the resolution reports `total_tokens` as the counter sum of
the **first** request's `done` fragment — the `parsed` variable captured by
the closure in the source is the fragment that carried `done: true` in the
first stream; `continueAfterTools` resolves with text only.  Without tool
calls the same fragment's counters are reported. -/
def streamChat (a : AgentState) (userMessage : String)
    (frags1 frags2 : List Fragment) (oracles : List PrimOracle)
    (executeToolsOpt : Bool) : Option (TurnResult × AgentState) :=
  let a1 := addMessage a "user" userMessage
  match runStream frags1 "" with
  | none => none
  | some (fullResponse, doneFrag) =>
    let toolCalls := extractToolCalls fullResponse.data
    if toolCalls.length > 0 ∧ a.enableTools = true ∧ executeToolsOpt = true then
      let tr := runToolCalls a1 toolCalls oracles
      let a2 := addMessage tr.2 "assistant" fullResponse
      let followUp := buildToolResultPrompt tr.1
      match continueAfterTools a2 followUp frags2 with
      | none => none
      | some (_, a3) =>
          some ({ message := fullResponse, model := a.model,
                  contextReset := false, toolCalls := toolCalls,
                  total_tokens := doneFrag.prompt_eval_count
                    + doneFrag.eval_count }, a3)
    else
      let a2 := addMessage a1 "assistant" fullResponse
      some ({ message := fullResponse, model := a.model,
              contextReset := false, toolCalls := ([] : List ToolCall),
              total_tokens := doneFrag.prompt_eval_count
                + doneFrag.eval_count }, a2)

/-! # Theorems -/

/-- Helper: the last element of `A ++ (B ++ [m])` is `m`. -/
theorem getLast?_append_snoc (A B : List Message) (m : Message) :
    (A ++ (B ++ [m])).getLast? = some m := by
  rw [← List.append_assoc]
  exact List.getLast?_concat _

/-- Claim C10: after every `addMessage (role, content)` the history is
non-empty and its last element is exactly the message just added, also when
the call triggers a context reset. -/
theorem addMessage_keeps_newest (s : AgentState) (role content : String) :
    (addMessage s role content).conversationHistory ≠ [] ∧
    (addMessage s role content).conversationHistory.getLast?
      = some (Message.mk role content) := by
  unfold addMessage checkAndResetContext
  by_cases h :
      s.maxContextTokens * 4
        < historyChars (s.conversationHistory ++ [Message.mk role content])
  · simp only [h, if_true]
    have hdrop :
        sliceLast 10 (s.conversationHistory ++ [Message.mk role content])
          = List.drop
              ((s.conversationHistory ++ [Message.mk role content]).length - 10)
              s.conversationHistory ++ [Message.mk role content] := by
      unfold sliceLast
      refine List.drop_append_of_le_length ?_
      simp only [List.length_append, List.length_cons, List.length_nil]
      omega
    constructor
    · simp [hdrop]
    · simp only [hdrop]
      exact getLast?_append_snoc _ _ _
  · simp only [h, if_false]
    constructor
    · simp
    · exact List.getLast?_concat _

/-- Claim C1: an `addMessage` call after which the accumulated content length
exceeds `4 × tokenBudget` characters replaces the history with every
system-role message of the pre-reset history, one synthetic reset notice, and
exactly the last 10 pre-reset messages, and the reset check reports `true`. -/
theorem addMessage_context_reset (s : AgentState) (role content : String)
    (hlen : 10 ≤ (s.conversationHistory ++ [Message.mk role content]).length)
    (hover : s.maxContextTokens * 4
      < historyChars (s.conversationHistory ++ [Message.mk role content])) :
    (addMessage s role content).conversationHistory
      = (s.conversationHistory ++ [Message.mk role content]).filter
          (fun msg => msg.role == "system")
        ++ [resetNotice]
        ++ sliceLast 10 (s.conversationHistory ++ [Message.mk role content]) ∧
    (sliceLast 10 (s.conversationHistory ++ [Message.mk role content])).length = 10 ∧
    (checkAndResetContext
      { s with conversationHistory :=
          s.conversationHistory ++ [Message.mk role content] }).1 = true := by
  have hlen10 : (sliceLast 10
      (s.conversationHistory ++ [Message.mk role content])).length = 10 := by
    unfold sliceLast
    simp only [List.length_drop]
    omega
  refine ⟨?_, hlen10, ?_⟩
  · unfold addMessage checkAndResetContext
    rw [if_pos hover]
  · unfold checkAndResetContext
    rw [if_pos hover]

/-- Witness for `addMessage_context_reset` at a concrete overlong history. -/
theorem addMessage_context_reset_witness :
    (10 ≤ ((List.replicate 9 (Message.mk "user" "aaaaaaaa"))
        ++ [Message.mk "user" "bbbbbbbb"]).length ∧
     ({ model := "llama2", systemPrompt := "p", maxContextTokens := 1,
        conversationHistory := List.replicate 9 (Message.mk "user" "aaaaaaaa"),
        enableTools := true, toolCallHistory := [],
        systemTools := ⟨[]⟩ } : AgentState).maxContextTokens * 4
       < historyChars ((List.replicate 9 (Message.mk "user" "aaaaaaaa"))
        ++ [Message.mk "user" "bbbbbbbb"])) ∧
    (addMessage
      { model := "llama2", systemPrompt := "p", maxContextTokens := 1,
        conversationHistory := List.replicate 9 (Message.mk "user" "aaaaaaaa"),
        enableTools := true, toolCallHistory := [],
        systemTools := ⟨[]⟩ } "user" "bbbbbbbb").conversationHistory
      = ((List.replicate 9 (Message.mk "user" "aaaaaaaa"))
          ++ [Message.mk "user" "bbbbbbbb"]).filter (fun msg => msg.role == "system")
        ++ [resetNotice]
        ++ sliceLast 10 ((List.replicate 9 (Message.mk "user" "aaaaaaaa"))
          ++ [Message.mk "user" "bbbbbbbb"]) := by
  refine ⟨⟨by decide, by decide⟩, ?_⟩
  exact (addMessage_context_reset _ "user" "bbbbbbbb" (by decide) (by decide)).1

/-- Claim C6: export immediately followed by import reproduces an identical
`{model, systemPrompt, history}` triple. -/
theorem export_import_round_trip (s : AgentState) :
    (importHistory s (exportHistory s)).model = s.model ∧
    (importHistory s (exportHistory s)).systemPrompt = s.systemPrompt ∧
    (importHistory s (exportHistory s)).conversationHistory
      = s.conversationHistory := by
  unfold importHistory exportHistory jsOrString
  refine ⟨?_, ?_, rfl⟩
  · by_cases h : s.model = "" <;> simp [h]
  · by_cases h : s.systemPrompt = "" <;> simp [h]

/-- Claim C4: a command matching the destructive-pattern denylist makes both
`executeCommand` and `executeCommandStream` fail immediately with the
security error, for every possible subprocess behaviour — so no subprocess
is consulted, the history is untouched, and no timeout can be involved. -/
theorem dangerous_command_denied (st : SystemToolsState) (command : String)
    (eo : ExecOutcome) (so : StreamOutcome)
    (h : isDangerousCommand command = true) :
    executeCommand st command eo
      = (Except.error "Command blocked for security reasons", st) ∧
    executeCommandStream st command so
      = (Except.error "Command blocked for security reasons", st) := by
  unfold executeCommand executeCommandStream
  rw [h]
  exact ⟨rfl, rfl⟩

/-- Witness for `dangerous_command_denied`: `rm -rf /` is denylisted and is
rejected without touching the execution history, whatever the subprocess
oracle would have produced. -/
theorem dangerous_command_denied_witness :
    isDangerousCommand "rm -rf /" = true ∧
    executeCommand ⟨[]⟩ "rm -rf /" (ExecOutcome.completed "gone" "")
      = (Except.error "Command blocked for security reasons", ⟨[]⟩) ∧
    executeCommandStream ⟨[]⟩ "rm -rf /" (StreamOutcome.closes [] (some 0))
      = (Except.error "Command blocked for security reasons", ⟨[]⟩) := by
  refine ⟨by decide, ?_, ?_⟩
  · exact (dangerous_command_denied ⟨[]⟩ "rm -rf /"
      (ExecOutcome.completed "gone" "") (StreamOutcome.closes [] (some 0))
      (by decide)).1
  · exact (dangerous_command_denied ⟨[]⟩ "rm -rf /"
      (ExecOutcome.completed "gone" "") (StreamOutcome.closes [] (some 0))
      (by decide)).2

/-- Counterexample to claim C5 as stated: in buffered mode a timed-out
command does not make the call fail — the `catch` block converts the
timeout rejection of `execAsync` into a **resolved** execution record (here
with exit code 1 and the error message as data). -/
theorem timeout_resolves_counterexample :
    (executeCommand ⟨[]⟩ "sleep 100"
        (ExecOutcome.timedOut (some "partial") none "Command failed: sleep 100")).1
      = Except.ok
          { command := "sleep 100", stdout := "partial",
            stderr := "Command failed: sleep 100", exitCode := some 1,
            error := some "Command failed: sleep 100" } ∧
    ∀ m : String,
      (executeCommand ⟨[]⟩ "sleep 100"
          (ExecOutcome.timedOut (some "partial") none "Command failed: sleep 100")).1
        ≠ Except.error m := by
  have hok : (executeCommand ⟨[]⟩ "sleep 100"
      (ExecOutcome.timedOut (some "partial") none "Command failed: sleep 100")).1
      = Except.ok
          { command := "sleep 100", stdout := "partial",
            stderr := "Command failed: sleep 100", exitCode := some 1,
            error := some "Command failed: sleep 100" } := rfl
  refine ⟨hok, ?_⟩
  intro m h
  rw [hok] at h
  exact Except.noConfusion h

/-- Amended claim C5: when the wall-clock timeout kills the subprocess,
buffered `executeCommand` resolves with an execution record that carries the
error message and exit code 1 (reported as data, not as a failure), while
`executeCommandStream` rejects with `Command timeout`; the streamed mode's
history record, written by the late `close` handler, includes any output
chunks delivered after the kill. -/
theorem timeout_behavior (st : SystemToolsState) (command : String)
    (so se : Option String) (msg : String) (pre post : List StreamChunk)
    (code : Option Int) (h : isDangerousCommand command = false) :
    (executeCommand st command (ExecOutcome.timedOut so se msg)
      = (Except.ok (execErrorRecord command so se none msg),
         { st with executionHistory :=
             st.executionHistory ++ [execErrorRecord command so se none msg] }) ∧
     (execErrorRecord command so se none msg).error = some msg ∧
     (execErrorRecord command so se none msg).exitCode = some 1) ∧
    ((executeCommandStream st command (StreamOutcome.timesOut pre post code)).1
      = Except.error "Command timeout" ∧
     (executeCommandStream st command
        (StreamOutcome.timesOut pre post code)).2.executionHistory
      = st.executionHistory ++
        [{ command := command, stdout := chunksOut (pre ++ post),
           stderr := chunksErr (pre ++ post), exitCode := code,
           error := none }]) := by
  unfold executeCommand executeCommandStream execErrorRecord
  rw [h]
  simp

/-- Witness for `timeout_behavior` at a concrete timed-out command. -/
theorem timeout_behavior_witness :
    isDangerousCommand "sleep 5" = false ∧
    (executeCommandStream ⟨[]⟩ "sleep 5"
        (StreamOutcome.timesOut [StreamChunk.out "a"] [StreamChunk.out "b"]
          none)).1
      = Except.error "Command timeout" := by
  refine ⟨by decide, ?_⟩
  exact (timeout_behavior ⟨[]⟩ "sleep 5" none none "m"
    [StreamChunk.out "a"] [StreamChunk.out "b"] none (by decide)).2.1

/-- Counterexample to claim C8 as stated: a denylisted command is an
invocation of the Command Executor that appends nothing to the executor
history (the security throw happens before the history push). -/
theorem denied_invocation_not_recorded_counterexample :
    (executeCommand ⟨[]⟩ "rm -rf /"
        (ExecOutcome.completed "" "")).2.executionHistory = [] ∧
    ((executeCommand ⟨[]⟩ "rm -rf /"
        (ExecOutcome.completed "" "")).2.executionHistory).length ≠ 1 := by
  constructor
  · rfl
  · decide

/-- Amended claim C8: every invocation that passes the security check
appends exactly one record to the executor-level history — buffered mode
for every outcome, streamed mode when the subprocess closes (also after a
timeout) — while a denylisted command or a spawn failure appends none; and
this executor history is a component distinct from the agent's tool-call
history: dispatching `execute_command` through `executeTool` with a
string, non-denylisted `args.command` appends one record to each of the
two histories, whereas a missing or non-string `args.command` throws
`TypeError` inside `isDangerousCommand` before any executor push, so only
the tool-call history grows. -/
theorem executor_history_append (st : SystemToolsState) (command : String)
    (eo : ExecOutcome) (chunks : List StreamChunk) (code : Option Int)
    (pre post : List StreamChunk) (msg : String)
    (a : AgentState) (args : Json) (cmd : String)
    (po : Except String ToolResVal)
    (h : isDangerousCommand command = false)
    (ha1 : argCommand args = some cmd)
    (ha2 : isDangerousCommand cmd = false) :
    (∃ ex, (executeCommand st command eo).2.executionHistory
        = st.executionHistory ++ [ex]) ∧
    (∃ ex, (executeCommandStream st command
        (StreamOutcome.closes chunks code)).2.executionHistory
        = st.executionHistory ++ [ex]) ∧
    (∃ ex, (executeCommandStream st command
        (StreamOutcome.timesOut pre post code)).2.executionHistory
        = st.executionHistory ++ [ex]) ∧
    (executeCommandStream st command (StreamOutcome.spawnFails msg)).2 = st ∧
    (∃ rec ex,
      (executeTool a "execute_command" args eo po).2.toolCallHistory
        = a.toolCallHistory ++ [rec] ∧
      (executeTool a "execute_command" args eo po).2.systemTools.executionHistory
        = a.systemTools.executionHistory ++ [ex]) ∧
    (∀ args2 : Json, argCommand args2 = none →
      (executeTool a "execute_command" args2 eo po).2.systemTools
        = a.systemTools ∧
      ∃ rec, (executeTool a "execute_command" args2 eo po).2.toolCallHistory
        = a.toolCallHistory ++ [rec]) := by
  refine ⟨?_, ?_, ?_, ?_, ?_, ?_⟩
  · unfold executeCommand
    rw [h]
    cases eo <;> simp
  · unfold executeCommandStream
    rw [h]
    simp
  · unfold executeCommandStream
    rw [h]
    simp
  · unfold executeCommandStream
    rw [h]
    rfl
  · unfold executeTool toolPrim executeCommand
    simp only [if_pos rfl, ha1, ha2]
    cases eo <;> exact ⟨_, _, rfl, rfl⟩
  · intro args2 hnone
    unfold executeTool toolPrim
    simp only [if_pos rfl, hnone]
    exact ⟨rfl, _, rfl⟩

/-- Witness for `executor_history_append` at a concrete safe command. -/
theorem executor_history_append_witness :
    isDangerousCommand "ls" = false ∧
    (executeCommand ⟨[]⟩ "ls"
        (ExecOutcome.completed "a.txt\n" "")).2.executionHistory
      = [{ command := "ls", stdout := "a.txt\n", stderr := "",
           exitCode := some 0, error := none }] := by
  have h := (executor_history_append ⟨[]⟩ "ls"
    (ExecOutcome.completed "a.txt\n" "") [] none [] [] "m"
    { model := "llama2", systemPrompt := "p", maxContextTokens := 4096,
      conversationHistory := [], enableTools := true, toolCallHistory := [],
      systemTools := ⟨[]⟩ }
    (Json.obj [("command", Json.str "ls")]) "ls"
    (Except.ok (ToolResVal.strRes ""))
    (by decide) (by decide) (by decide)).1
  exact ⟨by decide, by rfl⟩

/-- Claim C9: `executeTool` fails with `Unknown tool: <name>` for an unknown
name; when the dispatched primitive succeeds it appends a success record and
returns the wrapped result; when the primitive throws it appends a failure
record carrying the error message and re-raises the error. -/
theorem executeTool_dispatch (a : AgentState) (functionName : String)
    (args : Json) (eo : ExecOutcome) (po : Except String ToolResVal)
    (r : ToolResVal) (m : String) :
    (functionName ∉ knownToolNames →
      (toolPrim a functionName args eo po).1
        = Except.error ("Unknown tool: " ++ functionName)) ∧
    ((toolPrim a functionName args eo po).1 = Except.ok r →
      executeTool a functionName args eo po
        = (Except.ok r,
           { a with
               systemTools := (toolPrim a functionName args eo po).2
               toolCallHistory := a.toolCallHistory ++
                 [{ function := functionName, args := args,
                    result := some r, error := none, success := true }] })) ∧
    ((toolPrim a functionName args eo po).1 = Except.error m →
      executeTool a functionName args eo po
        = (Except.error m,
           { a with
               systemTools := (toolPrim a functionName args eo po).2
               toolCallHistory := a.toolCallHistory ++
                 [{ function := functionName, args := args,
                    result := none, error := some m,
                    success := false }] })) := by
  refine ⟨?_, ?_, ?_⟩
  · intro hunk
    unfold toolPrim
    have h1 : functionName ≠ "execute_command" := by
      intro he
      exact hunk (he ▸ (by decide : ("execute_command" : String) ∈ knownToolNames))
    rw [if_neg h1, if_neg hunk]
  · intro hok
    unfold executeTool
    rcases hp : toolPrim a functionName args eo po with ⟨res, st'⟩
    rw [hp] at hok
    simp only at hok
    subst hok
    rfl
  · intro herr
    unfold executeTool
    rcases hp : toolPrim a functionName args eo po with ⟨res, st'⟩
    rw [hp] at herr
    simp only at herr
    subst herr
    rfl

/-- Witness for `executeTool_dispatch`: an unknown tool name is rejected
with the `Unknown tool` error and a failure record is appended. -/
theorem executeTool_dispatch_witness :
    ("frobnicate" : String) ∉ knownToolNames ∧
    executeTool
      { model := "llama2", systemPrompt := "p", maxContextTokens := 4096,
        conversationHistory := [], enableTools := true, toolCallHistory := [],
        systemTools := ⟨[]⟩ }
      "frobnicate" (Json.obj []) (ExecOutcome.completed "" "")
      (Except.ok (ToolResVal.strRes "unused"))
      = (Except.error "Unknown tool: frobnicate",
         { model := "llama2", systemPrompt := "p", maxContextTokens := 4096,
           conversationHistory := [], enableTools := true,
           toolCallHistory :=
             [{ function := "frobnicate", args := Json.obj [],
                result := none, error := some "Unknown tool: frobnicate",
                success := false }],
           systemTools := ⟨[]⟩ }) := by
  refine ⟨by decide, ?_⟩
  exact (executeTool_dispatch
    { model := "llama2", systemPrompt := "p", maxContextTokens := 4096,
      conversationHistory := [], enableTools := true, toolCallHistory := [],
      systemTools := ⟨[]⟩ }
    "frobnicate" (Json.obj []) (ExecOutcome.completed "" "")
    (Except.ok (ToolResVal.strRes "unused"))
    (ToolResVal.strRes "unused") "Unknown tool: frobnicate").2.2 (by rfl)

/-- Characterization of a literal match: it succeeds exactly on inputs that
start with the literal, returning the remainder. -/
theorem matchLit_iff (p : List Char) :
    ∀ s t : List Char, matchLit p s = some t ↔ s = p ++ t := by
  induction p with
  | nil =>
    intro s t
    constructor
    · intro h
      cases h
      rfl
    · intro h
      cases h
      rfl
  | cons c p' ih =>
    intro s t
    cases s with
    | nil =>
      constructor
      · intro h
        cases h
      · intro h
        cases h
    | cons d s' =>
      constructor
      · intro h
        unfold matchLit at h
        by_cases hcd : c = d
        · rw [if_pos hcd] at h
          rw [(ih s' t).mp h, hcd]
          rfl
        · rw [if_neg hcd] at h
          cases h
      · intro h
        have hcd : d = c := by
          injection h with h1 h2
        have hs : s' = p' ++ t := by
          injection h with h1 h2
        unfold matchLit
        rw [if_pos hcd.symm]
        exact (ih s' t).mpr hs

/-- A literal always matches a copy of itself at the head. -/
theorem matchLit_self_append (p t : List Char) :
    matchLit p (p ++ t) = some t :=
  (matchLit_iff p (p ++ t) t).mpr rfl

/-- Failure of a literal match when no split is possible. -/
theorem matchLit_none_of (p s : List Char) (h : ∀ t, s ≠ p ++ t) :
    matchLit p s = none := by
  cases hm : matchLit p s with
  | none => rfl
  | some t => exact absurd ((matchLit_iff p s t).mp hm) (h t)

/-- `\s*` skips a whitespace run before the rest of the input. -/
theorem dropWsL_ws_append (w : List Char) (s : List Char)
    (hw : allWs w = true) : dropWsL (w ++ s) = dropWsL s := by
  induction w with
  | nil => rfl
  | cons c w' ih =>
    unfold allWs at hw
    simp only [List.all_cons, Bool.and_eq_true] at hw
    show dropWsL (c :: (w' ++ s)) = dropWsL s
    have hstep : dropWsL (c :: (w' ++ s))
        = if isSpaceJs c then dropWsL (w' ++ s) else c :: (w' ++ s) := rfl
    rw [hstep, if_pos hw.1]
    exact ih hw.2

/-- `\s*` stops at the opening function tag. -/
theorem dropWsL_funOpen (X : List Char) :
    dropWsL (funOpenL ++ X) = funOpenL ++ X := rfl

/-- `\s*` stops at the opening arguments tag. -/
theorem dropWsL_argOpen (X : List Char) :
    dropWsL (argOpenL ++ X) = argOpenL ++ X := rfl

/-- `\s*` stops at the closing marker tag. -/
theorem dropWsL_toolClose (X : List Char) :
    dropWsL (toolCloseL ++ X) = toolCloseL ++ X := rfl

/-- An occurrence embedded in a split witnesses `containsSeq`. -/
theorem containsSeq_of_split (pat : List Char) (hp : pat ≠ []) :
    ∀ n1 u : List Char, containsSeq pat (n1 ++ (pat ++ u)) = true := by
  intro n1
  induction n1 with
  | nil =>
    intro u
    cases pat with
    | nil => exact absurd rfl hp
    | cons c pt =>
      show containsSeq (c :: pt) ((c :: pt) ++ u) = true
      rw [show (c :: pt) ++ u = c :: (pt ++ u) from rfl]
      unfold containsSeq
      rw [← List.cons_append, matchLit_self_append (c :: pt) u]
      rfl
  | cons c n1' ih =>
    intro u
    show containsSeq pat (c :: (n1' ++ (pat ++ u))) = true
    unfold containsSeq
    rw [ih u]
    simp

/-- The tag `<tool_call>` has no non-trivial border (no proper prefix of it
is also a suffix), so it cannot overlap itself. -/
theorem toolOpen_no_border :
    ∀ j, j < toolOpenL.length → 0 < j →
      List.take (toolOpenL.length - j) toolOpenL ≠ List.drop j toolOpenL := by
  decide

/-- The tag `</function>` has no non-trivial border. -/
theorem funClose_no_border :
    ∀ j, j < funCloseL.length → 0 < j →
      List.take (funCloseL.length - j) funCloseL ≠ List.drop j funCloseL := by
  decide

/-- The tag `</arguments>` has no non-trivial border. -/
theorem argClose_no_border :
    ∀ j, j < argCloseL.length → 0 < j →
      List.take (argCloseL.length - j) argCloseL ≠ List.drop j argCloseL := by
  decide

/-- A border-free literal cannot match starting strictly inside text that is
followed by a copy of the literal itself. -/
theorem matchLit_none_overlap (pat : List Char)
    (hb : ∀ j, j < pat.length → 0 < j →
      List.take (pat.length - j) pat ≠ List.drop j pat)
    (n2 rest : List Char) (hn2 : n2 ≠ [])
    (hnc : ∀ u, n2 ≠ pat ++ u) :
    matchLit pat (n2 ++ (pat ++ rest)) = none := by
  cases hm : matchLit pat (n2 ++ (pat ++ rest)) with
  | none => rfl
  | some t =>
    exfalso
    have heq : n2 ++ (pat ++ rest) = pat ++ t :=
      (matchLit_iff pat _ t).mp hm
    rcases List.append_eq_append_iff.mp heq with ⟨u, hpat, hrest⟩ | ⟨u, hn, _⟩
    · by_cases hu : u = []
      · subst hu
        have hpn : pat = n2 := by simpa using hpat
        exact hnc [] (by simp [hpn])
      · have hjpos : 0 < n2.length := List.length_pos.mpr hn2
        have hulen : pat.length = n2.length + u.length := by
          rw [hpat, List.length_append]
        have hjlt : n2.length < pat.length := by
          have : 0 < u.length := List.length_pos.mpr hu
          omega
        have hdrop : List.drop n2.length pat = u := by
          rw [hpat]
          exact List.drop_left n2 u
        have htake : List.take (pat.length - n2.length) pat = u := by
          have hlen : pat.length - n2.length = u.length := by omega
          rw [hlen]
          have h1 : List.take u.length (pat ++ rest) = List.take u.length pat := by
            rw [List.take_append_of_le_length (by omega)]
          have h2 : List.take u.length (u ++ t) = u := by
            simp
          rw [← h1, hrest, h2]
        exact hb n2.length hjlt hjpos (htake.trans hdrop.symm)
    · exact hnc u hn

/-- A literal that does not occur in `p` and is border-free cannot match at
any position strictly inside `p` when the text continues either with
nothing or with the literal itself. -/
theorem split_no_match (pat : List Char) (hpne : pat ≠ [])
    (hb : ∀ j, j < pat.length → 0 < j →
      List.take (pat.length - j) pat ≠ List.drop j pat)
    (p : List Char) (hp : containsSeq pat p = false)
    (r : List Char) (hr : r = [] ∨ ∃ r2, r = pat ++ r2) :
    ∀ n1 n2, p = n1 ++ n2 → n2 ≠ [] → matchLit pat (n2 ++ r) = none := by
  intro n1 n2 hsplit hne
  have hnc : ∀ u, n2 ≠ pat ++ u := by
    intro u hu
    have : containsSeq pat p = true := by
      rw [hsplit, hu]
      exact containsSeq_of_split pat hpne n1 u
    rw [hp] at this
    cases this
  rcases hr with hr | ⟨r2, hr⟩
  · subst hr
    refine matchLit_none_of pat (n2 ++ []) ?_
    intro t ht
    exact hnc t (by simpa using ht)
  · subst hr
    exact matchLit_none_overlap pat hb n2 r2 hne hnc

/-- A lazy group captures exactly `name` when the pattern continuation
fails at every shorter split and succeeds right after `name`. -/
theorem lazySplit_exact {α : Type} (k : List Char → List Char → Option α)
    (v : α) (tail : List Char) :
    ∀ (name done : List Char),
    (∀ n1 n2, name = n1 ++ n2 → n2 ≠ [] → k (done ++ n1) (n2 ++ tail) = none) →
    k (done ++ name) tail = some v →
    lazySplit k done (name ++ tail) = some v := by
  intro name
  induction name with
  | nil =>
    intro done hnone hsome
    show lazySplit k done ([] ++ tail) = some v
    rw [List.nil_append]
    rw [show done ++ ([] : List Char) = done from by simp] at hsome
    cases tail with
    | nil =>
      show k done [] = some v
      exact hsome
    | cons c t =>
      unfold lazySplit
      rw [hsome]
  | cons c name' ih =>
    intro done hnone hsome
    show lazySplit k done ((c :: name') ++ tail) = some v
    rw [List.cons_append]
    unfold lazySplit
    have h0 : k done (c :: (name' ++ tail)) = none := by
      have h := hnone [] (c :: name') rfl (by simp)
      simpa using h
    rw [h0]
    show lazySplit k (done ++ [c]) (name' ++ tail) = some v
    apply ih (done ++ [c])
    · intro n1 n2 hs hne
      have h := hnone (c :: n1) n2 (by rw [hs]; rfl) hne
      simpa [List.append_assoc] using h
    · have h := hsome
      simpa [List.append_assoc] using h

/-- A pattern continuation starting with a border-free closing literal
fails at every split strictly inside text not containing that literal. -/
theorem bind_none_of_split {β : Type} (pat : List Char) (hpne : pat ≠ [])
    (hb : ∀ j, j < pat.length → 0 < j →
      List.take (pat.length - j) pat ≠ List.drop j pat)
    (p : List Char) (hp : containsSeq pat p = false) (C : List Char)
    (n1 n2 : List Char) (hsplit : p = n1 ++ n2) (hne : n2 ≠ [])
    (f : List Char → Option β) :
    (matchLit pat (n2 ++ (pat ++ C))).bind f = none := by
  rw [split_no_match pat hpne hb p hp (pat ++ C) (Or.inr ⟨C, rfl⟩)
    n1 n2 hsplit hne]
  rfl

/-- The whole marker pattern fails wherever its opening literal fails. -/
theorem matchMarkerAt_none (s : List Char)
    (h : matchLit toolOpenL s = none) : matchMarkerAt s = none := by
  unfold matchMarkerAt
  rw [h]
  rfl

/-- At the head of a well-formed rendered marker, the pattern matches and
captures exactly the marker's name and arguments, consuming exactly the
marker. -/
theorem matchMarkerAt_render (m : Marker) (rest : List Char)
    (hwf : WFMarker m) :
    matchMarkerAt (renderMarker m ++ rest) = some ((m.name, m.args), rest) := by
  obtain ⟨h1, h2, h3, h4, h5⟩ := hwf
  have hfne : funCloseL ≠ ([] : List Char) := by decide
  have hane : argCloseL ≠ ([] : List Char) := by decide
  unfold matchMarkerAt renderMarker
  simp only [List.append_assoc]
  rw [matchLit_self_append toolOpenL]
  rw [Option.some_bind]
  rw [dropWsL_ws_append m.ws1 _ h1, dropWsL_funOpen]
  rw [matchLit_self_append funOpenL]
  rw [Option.some_bind]
  apply lazySplit_exact _ _ _ m.name []
  · intro n1 n2 hsplit hne
    exact bind_none_of_split funCloseL hfne funClose_no_border m.name h4
      _ n1 n2 hsplit hne _
  · simp only [List.nil_append]
    rw [matchLit_self_append funCloseL]
    rw [Option.some_bind]
    rw [dropWsL_ws_append m.ws2 _ h2, dropWsL_argOpen]
    rw [matchLit_self_append argOpenL]
    rw [Option.some_bind]
    apply lazySplit_exact _ _ _ m.args []
    · intro n1 n2 hsplit hne
      exact bind_none_of_split argCloseL hane argClose_no_border m.args h5
        _ n1 n2 hsplit hne _
    · simp only [List.nil_append]
      rw [matchLit_self_append argCloseL]
      rw [Option.some_bind]
      rw [dropWsL_ws_append m.ws3 _ h3, dropWsL_toolClose]
      rw [matchLit_self_append toolCloseL]
      rw [Option.map_some']

/-- Scanning an empty input yields no tool calls. -/
theorem scanToolCalls_nil (fuel : Nat) : scanToolCalls fuel [] = [] := by
  cases fuel <;> rfl

/-- One step of the scan where the pattern does not match. -/
theorem scanToolCalls_skip_one (f : Nat) (c : Char) (t : List Char)
    (h : matchMarkerAt (c :: t) = none) :
    scanToolCalls (f + 1) (c :: t) = scanToolCalls f t := by
  conv_lhs => rw [scanToolCalls]
  rw [h]

/-- The scan skips a region in which the opening literal matches nowhere. -/
theorem scanToolCalls_skip (r : List Char) :
    ∀ (p : List Char) (fuel : Nat), (p ++ r).length ≤ fuel →
    (∀ n1 n2, p = n1 ++ n2 → n2 ≠ [] → matchLit toolOpenL (n2 ++ r) = none) →
    scanToolCalls fuel (p ++ r) = scanToolCalls (fuel - p.length) r := by
  intro p
  induction p with
  | nil =>
    intro fuel hf hno
    simp
  | cons c p' ih =>
    intro fuel hf hno
    cases fuel with
    | zero =>
      exfalso
      have : (c :: (p' ++ r)).length ≤ 0 := hf
      simp at this
    | succ f =>
      show scanToolCalls (f + 1) (c :: (p' ++ r)) = _
      have hmm : matchMarkerAt (c :: (p' ++ r)) = none := by
        apply matchMarkerAt_none
        have h := hno [] (c :: p') rfl (by simp)
        simpa using h
      rw [scanToolCalls_skip_one f c (p' ++ r) hmm]
      have harith : (f + 1) - (c :: p').length = f - p'.length := by
        simp only [List.length_cons]
        omega
      rw [harith]
      apply ih f
      · have : (c :: (p' ++ r)).length ≤ f + 1 := hf
        simp only [List.length_cons] at this
        omega
      · intro n1 n2 hs hne
        exact hno (c :: n1) n2 (by rw [hs]; rfl) hne

/-- One step of the scan at a successful match position. -/
theorem scanToolCalls_step (fuel : Nat) (s rest n a : List Char)
    (hm : matchMarkerAt s = some ((n, a), rest)) :
    scanToolCalls (fuel + 1) s
      = { name := trimL n, arguments := parseArgsText a }
        :: scanToolCalls fuel rest := by
  cases s with
  | nil =>
    exfalso
    rw [matchMarkerAt_none [] rfl] at hm
    cases hm
  | cons c t =>
    conv_lhs => rw [scanToolCalls]
    rw [hm]

/-- A rendered marker followed by anything, re-associated to expose the
opening tag. -/
theorem renderMarker_eq (m : Marker) (X : List Char) :
    renderMarker m ++ X
      = toolOpenL ++ (m.ws1 ++ (funOpenL ++ (m.name ++ (funCloseL ++ (m.ws2
        ++ (argOpenL ++ (m.args ++ (argCloseL ++ (m.ws3
        ++ (toolCloseL ++ X)))))))))) := by
  simp [renderMarker, List.append_assoc]

/-- A rendered marker is at least as long as its opening tag. -/
theorem renderMarker_length_ge (m : Marker) : 11 ≤ (renderMarker m).length := by
  unfold renderMarker
  simp only [List.length_append]
  have h : toolOpenL.length = 11 := rfl
  omega

/-- The scan over interleaved plain text and well-formed markers produces
exactly one entry per marker, in text order. -/
theorem scan_interleave :
    ∀ (ms : List Marker) (ps : List (List Char)) (fuel : Nat),
    ps.length = ms.length + 1 →
    (∀ p ∈ ps, containsSeq toolOpenL p = false) →
    (∀ m ∈ ms, WFMarker m) →
    (interleave ps ms).length ≤ fuel →
    scanToolCalls fuel (interleave ps ms)
      = ms.map (fun m =>
          { name := trimL m.name, arguments := parseArgsText m.args }) := by
  intro ms
  induction ms with
  | nil =>
    intro ps fuel hlen hps hms hfuel
    rcases ps with _ | ⟨p, ps'⟩
    · simp at hlen
    rcases ps' with _ | ⟨q, ps''⟩
    · have hint : interleave [p] [] = p ++ [] := by
        simp only [interleave]
      rw [hint] at hfuel ⊢
      have hno := split_no_match toolOpenL (by decide) toolOpen_no_border p
        (hps p (by simp)) [] (Or.inl rfl)
      rw [scanToolCalls_skip [] p fuel hfuel hno]
      rw [scanToolCalls_nil]
      simp
    · simp at hlen
  | cons m ms' ih =>
    intro ps fuel hlen hps hms hfuel
    rcases ps with _ | ⟨p, ps'⟩
    · simp at hlen
    have hint : interleave (p :: ps') (m :: ms')
        = (p ++ renderMarker m) ++ interleave ps' ms' := by
      simp only [interleave]
    rw [hint] at hfuel ⊢
    rw [List.append_assoc]
    have hr : (renderMarker m ++ interleave ps' ms') = [] ∨
        ∃ r2, renderMarker m ++ interleave ps' ms' = toolOpenL ++ r2 :=
      Or.inr ⟨_, renderMarker_eq m _⟩
    have hno := split_no_match toolOpenL (by decide) toolOpen_no_border p
      (hps p (by simp)) (renderMarker m ++ interleave ps' ms') hr
    have hfu : (p ++ (renderMarker m ++ interleave ps' ms')).length ≤ fuel := by
      rw [← List.append_assoc]
      exact hfuel
    rw [scanToolCalls_skip (renderMarker m ++ interleave ps' ms') p fuel hfu hno]
    have hlen1 : 11 ≤ (renderMarker m).length := renderMarker_length_ge m
    have h2 : (renderMarker m ++ interleave ps' ms').length ≤ fuel - p.length := by
      simp only [List.length_append] at hfu ⊢
      omega
    rcases hfe : fuel - p.length with _ | f
    · exfalso
      simp only [List.length_append] at h2
      omega
    · rw [scanToolCalls_step f (renderMarker m ++ interleave ps' ms')
        (interleave ps' ms') m.name m.args
        (matchMarkerAt_render m _ (hms m (by simp)))]
      simp only [List.map_cons]
      congr 1
      apply ih ps' f
      · simpa using hlen
      · intro q hq
        exact hps q (by simp [hq])
      · intro m' hm'
        exact hms m' (by simp [hm'])
      · simp only [List.length_append] at h2
        omega

/-- Claim C3: for assistant text consisting of N well-formed markers
interleaved with plain text (segments free of the opening tag), extraction
yields exactly N entries whose function names appear in marker order, and
extraction — a pure function of the text, run on a fresh regex each call —
is idempotent (repeated extraction of the same text gives the same list). -/
theorem extractToolCalls_ordered (plains : List (List Char))
    (markers : List Marker)
    (hlen : plains.length = markers.length + 1)
    (hplain : ∀ p ∈ plains, containsSeq toolOpenL p = false)
    (hwf : ∀ m ∈ markers, WFMarker m) :
    (extractToolCalls (interleave plains markers)).map ToolCall.name
      = markers.map (fun m => trimL m.name) ∧
    (extractToolCalls (interleave plains markers)).length = markers.length ∧
    extractToolCalls (interleave plains markers)
      = extractToolCalls (interleave plains markers) := by
  have h := scan_interleave markers plains (interleave plains markers).length
    hlen hplain hwf (le_refl _)
  unfold extractToolCalls
  rw [h]
  refine ⟨?_, ?_, rfl⟩
  · simp
  · simp

/-- Witness for `extractToolCalls_ordered`: two markers with interleaved
prose extract to exactly their two names in order. -/
theorem extractToolCalls_ordered_witness :
    ((["hello ".data, " mid ".data, " end".data] : List (List Char)).length
      = ([Marker.mk "\n".data "list_directory".data []
            "\x7b\"path\": \".\"\x7d".data "\n".data,
          Marker.mk [] "read_file".data [] "\x7bbad".data []] : List Marker).length
        + 1) ∧
    (extractToolCalls (interleave
        ["hello ".data, " mid ".data, " end".data]
        [Marker.mk "\n".data "list_directory".data []
            "\x7b\"path\": \".\"\x7d".data "\n".data,
         Marker.mk [] "read_file".data [] "\x7bbad".data []])).map ToolCall.name
      = ["list_directory".data, "read_file".data] := by
  refine ⟨by decide, ?_⟩
  have h := (extractToolCalls_ordered
    ["hello ".data, " mid ".data, " end".data]
    [Marker.mk "\n".data "list_directory".data []
        "\x7b\"path\": \".\"\x7d".data "\n".data,
     Marker.mk [] "read_file".data [] "\x7bbad".data []]
    (by decide) (by decide) (by decide)).1
  rw [h]
  decide

/-- Amended claim C2: when a streamed turn contains tool calls, the
resolution reports `total_tokens` as the counter sum of the **first**
request's `done` fragment; the follow-up request's counters are dropped
(`continueAfterTools` resolves with text only). -/
theorem streamChat_reports_first_request_tokens (a : AgentState)
    (userMessage : String) (frags1 frags2 : List Fragment)
    (oracles : List PrimOracle) (full resp : String) (f1 f2 : Fragment)
    (h1 : runStream frags1 "" = some (full, f1))
    (h2 : runStream frags2 "" = some (resp, f2))
    (htc : 0 < (extractToolCalls full.data).length)
    (hen : a.enableTools = true) :
    (streamChat a userMessage frags1 frags2 oracles true).map
        (fun r => r.1.total_tokens)
      = some (f1.prompt_eval_count + f1.eval_count) := by
  unfold streamChat
  rw [h1]
  show (if 0 < (extractToolCalls full.data).length ∧ a.enableTools = true
        ∧ true = true then _ else _ : Option (TurnResult × AgentState)).map _ = _
  rw [if_pos ⟨htc, hen, rfl⟩]
  unfold continueAfterTools
  rw [h2]
  rfl

/-- Witness for `streamChat_reports_first_request_tokens` at a concrete
turn with one tool call. -/
theorem streamChat_reports_first_request_tokens_witness :
    (runStream [Fragment.mk "<tool_call><function>get_current_directory</function><arguments>\x7b\x7d</arguments></tool_call>" false 0 0,
        Fragment.mk "" true 5 7] ""
      = some ("<tool_call><function>get_current_directory</function><arguments>\x7b\x7d</arguments></tool_call>",
          Fragment.mk "" true 5 7)) ∧
    (streamChat
      { model := "llama2", systemPrompt := "p", maxContextTokens := 4096,
        conversationHistory := [], enableTools := true, toolCallHistory := [],
        systemTools := ⟨[]⟩ }
      "where am I"
      [Fragment.mk "<tool_call><function>get_current_directory</function><arguments>\x7b\x7d</arguments></tool_call>" false 0 0,
       Fragment.mk "" true 5 7]
      [Fragment.mk "You are in /root." true 11 13]
      [PrimOracle.mk (ExecOutcome.completed "" "")
        (Except.ok (ToolResVal.strRes "/root"))]
      true).map (fun r => r.1.total_tokens) = some (5 + 7) := by
  refine ⟨by rfl, ?_⟩
  exact streamChat_reports_first_request_tokens _ "where am I" _ _ _
    "<tool_call><function>get_current_directory</function><arguments>\x7b\x7d</arguments></tool_call>"
    "You are in /root." (Fragment.mk "" true 5 7)
    (Fragment.mk "You are in /root." true 11 13)
    (by rfl) (by rfl) (by decide) (by rfl)

/-- Counterexample to claim C2 as stated: in a concrete tool-call turn
whose first request's `done` fragment carries counters 5 and 7 and whose
follow-up request's `done` fragment carries counters 11 and 13, the
resolution reports 12 — the first request's sum — and not 24, the second
request's sum the claim prescribes. -/
theorem streamChat_second_request_tokens_counterexample :
    (streamChat
      { model := "llama2", systemPrompt := "p", maxContextTokens := 4096,
        conversationHistory := [], enableTools := true, toolCallHistory := [],
        systemTools := ⟨[]⟩ }
      "where am I"
      [Fragment.mk "<tool_call><function>get_current_directory</function><arguments>\x7b\x7d</arguments></tool_call>" false 0 0,
       Fragment.mk "" true 5 7]
      [Fragment.mk "You are in /root." true 11 13]
      [PrimOracle.mk (ExecOutcome.completed "" "")
        (Except.ok (ToolResVal.strRes "/root"))]
      true).map (fun r => r.1.total_tokens) = some 12 ∧
    (streamChat
      { model := "llama2", systemPrompt := "p", maxContextTokens := 4096,
        conversationHistory := [], enableTools := true, toolCallHistory := [],
        systemTools := ⟨[]⟩ }
      "where am I"
      [Fragment.mk "<tool_call><function>get_current_directory</function><arguments>\x7b\x7d</arguments></tool_call>" false 0 0,
       Fragment.mk "" true 5 7]
      [Fragment.mk "You are in /root." true 11 13]
      [PrimOracle.mk (ExecOutcome.completed "" "")
        (Except.ok (ToolResVal.strRes "/root"))]
      true).map (fun r => r.1.total_tokens) ≠ some (11 + 13) := by
  have h : (streamChat
      { model := "llama2", systemPrompt := "p", maxContextTokens := 4096,
        conversationHistory := [], enableTools := true, toolCallHistory := [],
        systemTools := ⟨[]⟩ }
      "where am I"
      [Fragment.mk "<tool_call><function>get_current_directory</function><arguments>\x7b\x7d</arguments></tool_call>" false 0 0,
       Fragment.mk "" true 5 7]
      [Fragment.mk "You are in /root." true 11 13]
      [PrimOracle.mk (ExecOutcome.completed "" "")
        (Except.ok (ToolResVal.strRes "/root"))]
      true).map (fun r => r.1.total_tokens) = some 12 := by decide
  refine ⟨h, ?_⟩
  rw [h]
  decide

/-- Claim C7: a well-formed marker whose arguments block is malformed JSON
extracts to a tool-call entry with an empty argument object, and a streamed
turn whose assistant text is that marker (with plain text around it) still
resolves — the malformed arguments do not fail the turn. -/
theorem malformed_args_empty_object (p0 p1 : List Char) (m : Marker)
    (hp0 : containsSeq toolOpenL p0 = false)
    (hp1 : containsSeq toolOpenL p1 = false)
    (hwf : WFMarker m)
    (hne : trimL m.args ≠ [])
    (hbad : jsonParse (trimL m.args) = none) :
    extractToolCalls (interleave [p0, p1] [m])
      = [{ name := trimL m.name, arguments := Json.obj [] }] ∧
    (∀ (a : AgentState) (userMessage resp : String) (f2 : Fragment)
      (frags2 : List Fragment) (oracles : List PrimOracle),
      a.enableTools = true →
      runStream frags2 "" = some (resp, f2) →
      ∃ r, streamChat a userMessage
          [Fragment.mk (String.mk (interleave [p0, p1] [m])) true 0 0]
          frags2 oracles true = some r) := by
  have hpa : parseArgsText m.args = Json.obj [] := by
    unfold parseArgsText
    simp only [if_neg hne, hbad]
  have hext : extractToolCalls (interleave [p0, p1] [m])
      = [{ name := trimL m.name, arguments := Json.obj [] }] := by
    have h := scan_interleave [m] [p0, p1]
      (interleave [p0, p1] [m]).length rfl
      (by
        intro p hp
        simp only [List.mem_cons, List.not_mem_nil, or_false] at hp
        rcases hp with rfl | rfl
        · exact hp0
        · exact hp1)
      (by
        intro m' hm'
        simp only [List.mem_cons, List.not_mem_nil, or_false] at hm'
        subst hm'
        exact hwf)
      (le_refl _)
    unfold extractToolCalls
    rw [h]
    simp only [List.map_cons, List.map_nil, hpa]
  refine ⟨hext, ?_⟩
  intro a userMessage resp f2 frags2 oracles hen h2
  have hrs : runStream
      [Fragment.mk (String.mk (interleave [p0, p1] [m])) true 0 0] ""
      = some (String.mk (interleave [p0, p1] [m]),
          Fragment.mk (String.mk (interleave [p0, p1] [m])) true 0 0) := rfl
  have hext2 : extractToolCalls
      (String.mk (interleave [p0, p1] [m])).data
      = [{ name := trimL m.name, arguments := Json.obj [] }] := hext
  have hs : (streamChat a userMessage
      [Fragment.mk (String.mk (interleave [p0, p1] [m])) true 0 0]
      frags2 oracles true).isSome = true := by
    simp only [streamChat, hrs]
    simp only [hext2]
    rw [if_pos ⟨by simp, hen, trivial⟩]
    simp only [continueAfterTools, h2]
    rfl
  rcases Option.isSome_iff_exists.mp hs with ⟨r, hr⟩
  exact ⟨r, hr⟩

/-- Witness for `malformed_args_empty_object`: a marker with arguments text
`{oops` extracts to an entry with the empty argument object. -/
theorem malformed_args_empty_object_witness :
    (trimL "\x7boops".data ≠ [] ∧ jsonParse (trimL "\x7boops".data) = none) ∧
    extractToolCalls (interleave ["x ".data, " y".data]
        [Marker.mk [] "read_file".data [] "\x7boops".data []])
      = [{ name := trimL "read_file".data, arguments := Json.obj [] }] := by
  refine ⟨⟨by decide, by rfl⟩, ?_⟩
  exact (malformed_args_empty_object "x ".data " y".data
    (Marker.mk [] "read_file".data [] "\x7boops".data [])
    (by decide) (by decide) (by decide) (by decide) (by rfl)).1
